import Mathlib

/-!
Shallow embedding of the s-arena allocator (`src/sarena.c`).

The allocator hands out byte blocks from fixed-capacity regions organized
as a singly linked list.  We model:

* the underlying memory provider (C `malloc`/`free`) as a `Provider` with a
  success oracle indexed by call number, a fresh-id counter and a list of
  live block ids (block contents and byte sizes are not tracked — the
  allocator never inspects them);
* a `Region` record by its two counters plus the identities of its two
  heap blocks (the region record itself and its `_mem_pool` buffer);
* the region list as a Lean `List Region` (head first; the C `_tail`
  pointer is the last element, `_count` the length);
* the `_rewind_it` pointer as an `Option Nat` index into the list (valid
  because while the iterator is set the list is never restructured);
* returned allocation addresses as `pool-id × offset` pairs
  (`_mem_pool + _used_cap` in the C source);
* undefined behaviour (null-pointer dereference) as the `none` result of
  an `Option`-valued function.

`pthread` locking is not modelled: every public operation holds the lock
for its whole body, so each operation is a single atomic step here.
-/

/-- Error codes of the allocator (`sa_err` in the C source). -/
inductive sa_err where
  | success
  | invalid_arg
  | malloc_fail
deriving DecidableEq, Repr

/-- The underlying memory provider (C `malloc`/`free`).  `ok n` tells
whether the `n`-th allocation call succeeds; `ctr` counts calls made so
far and doubles as the fresh block id; `live` is the set of currently
allocated block ids. -/
structure Provider where
  ok : Nat → Bool
  ctr : Nat
  live : List Nat

/-- One `malloc` call against the provider. -/
def pmalloc (p : Provider) : Option Nat × Provider :=
  if p.ok p.ctr then
    (some p.ctr, { p with ctr := p.ctr + 1, live := p.ctr :: p.live })
  else
    (none, { p with ctr := p.ctr + 1 })

/-- One `free` call against the provider. -/
def pfree (b : Nat) (p : Provider) : Provider :=
  { p with live := p.live.erase b }

/-- A region (`struct Region`): the two capacity counters plus the heap
identities of the region record (`rec_id`) and of its memory pool
(`pool_id`).  The `_next` link is implicit in the enclosing list. -/
structure Region where
  used_cap : Nat
  total_cap : Nat
  pool_id : Nat
  rec_id : Nat
deriving DecidableEq, Repr

/-- An allocation address: the pool buffer it points into and the byte
offset within it (`_mem_pool + _used_cap`). -/
abbrev Addr := Nat × Nat

/-- The arena (`struct SArena`).  `regions` is the region list head-first,
`rewind_it` the rewind iterator as an index into `regions` (`none` = NULL),
`arena_id` the heap identity of the `SArena` record itself. -/
structure SArena where
  regions : List Region
  region_cap : Nat
  rewind_it : Option Nat
  arena_id : Nat
deriving DecidableEq, Repr

/-- `_region_alloc`: malloc the region record, then its pool; on pool
failure free the record again.  A fresh region starts fully free. -/
def _region_alloc (total_cap : Nat) (p : Provider) : Option Region × Provider :=
  match pmalloc p with
  | (none, p1) => (none, p1)
  | (some rid, p1) =>
    match pmalloc p1 with
    | (none, p2) => (none, pfree rid p2)
    | (some pid, p2) => (some ⟨0, total_cap, pid, rid⟩, p2)

/-- `_region_destroy`: free the pool buffer, then the region record. -/
def _region_destroy (r : Region) (p : Provider) : Provider :=
  pfree r.rec_id (pfree r.pool_id p)

/-- `_region_list_push_back`: allocate a region and append it at the tail.
Returns `none` (and the provider after the failed calls) when
`_region_alloc` fails, leaving the list untouched. -/
def _region_list_push_back (rs : List Region) (total_cap : Nat) (p : Provider) :
    Option (List Region) × Provider :=
  match _region_alloc total_cap p with
  | (none, p1) => (none, p1)
  | (some nr, p1) => (some (rs ++ [nr]), p1)

/-- `_region_list_pop_front`: destroy and unlink the head.  The C code is
only ever called with a non-empty list (`count > 0` guards every call
site); on `[]` we leave the state unchanged. -/
def _region_list_pop_front (rs : List Region) (p : Provider) :
    List Region × Provider :=
  match rs with
  | [] => ([], p)
  | r :: rest => (rest, _region_destroy r p)

/-- `_sarena_init`: reject a zero region capacity, otherwise set the
capacity, clear the rewind iterator, start from an empty list and push the
first region.  On push failure the arena keeps the empty list. -/
def _sarena_init (a : SArena) (region_cap : Nat) (p : Provider) :
    sa_err × SArena × Provider :=
  if region_cap = 0 then (sa_err.invalid_arg, a, p)
  else
    let a1 : SArena :=
      { a with region_cap := region_cap, rewind_it := none, regions := [] }
    match _region_list_push_back [] region_cap p with
    | (none, p1) => (sa_err.malloc_fail, a1, p1)
    | (some rs, p1) => (sa_err.success, { a1 with regions := rs }, p1)

/-- `sarena_create`: malloc the arena record (fields still garbage, modelled
by zeros/none — they are either overwritten by `_sarena_init` or freed
unobserved), initialise it, and free the record again when initialisation
fails. -/
def sarena_create (region_cap : Nat) (p : Provider) :
    Option SArena × sa_err × Provider :=
  match pmalloc p with
  | (none, p1) => (none, sa_err.malloc_fail, p1)
  | (some aid, p1) =>
    let raw : SArena := { regions := [], region_cap := 0, rewind_it := none, arena_id := aid }
    match _sarena_init raw region_cap p1 with
    | (sa_err.success, a, p2) => (some a, sa_err.success, p2)
    | (e, _, p2) => (none, e, pfree aid p2)

/-- Index of the C `curr_region` pointer: the rewind iterator when set,
otherwise the list tail (`none` when the tail pointer is NULL). -/
def activeIdx (a : SArena) : Option Nat :=
  match a.rewind_it with
  | some i => some i
  | none => if a.regions.length = 0 then none else some (a.regions.length - 1)

/-- `_sarena_malloc`.  Result `none` models a null-pointer dereference
(undefined behaviour, unreachable from states the library produces);
`some (addr?, err, arena, provider)` mirrors the C return value, the
out-parameter and the state after the call. -/
def _sarena_malloc (a : SArena) (p : Provider) (size : Nat) :
    Option (Option Addr × sa_err × SArena × Provider) :=
  if size > a.region_cap ∨ size = 0 then
    some (none, sa_err.invalid_arg, a, p)
  else
    match activeIdx a with
    | none => none
    | some ci =>
      match a.regions[ci]? with
      | none => none
      | some curr =>
        if size > curr.total_cap - curr.used_cap then
          match a.rewind_it with
          | none =>
            -- not rewinding: push back a region, carve from the old
            -- tail's `_next`, i.e. the appended region at index `ci + 1`
            match _region_list_push_back a.regions a.region_cap p with
            | (none, p1) => some (none, sa_err.malloc_fail, a, p1)
            | (some rs1, p1) =>
              match rs1[ci + 1]? with
              | none => none
              | some nr =>
                some (some (nr.pool_id, nr.used_cap), sa_err.success,
                  { a with regions :=
                      rs1.set (ci + 1) ({ nr with used_cap := nr.used_cap + size }) },
                  p1)
          | some i =>
            -- rewinding: advance the iterator; clear it when it reaches
            -- the tail; carve from the old iterator's `_next`
            match a.regions[i + 1]? with
            | none => none
            | some nr =>
              some (some (nr.pool_id, nr.used_cap), sa_err.success,
                { a with
                    rewind_it :=
                      if i + 1 = a.regions.length - 1 then none else some (i + 1),
                    regions :=
                      a.regions.set (i + 1) ({ nr with used_cap := nr.used_cap + size }) },
                p)
        else
          some (some (curr.pool_id, curr.used_cap), sa_err.success,
            { a with regions :=
                a.regions.set ci ({ curr with used_cap := curr.used_cap + size }) },
            p)

/-- `sarena_malloc`: lock, `_sarena_malloc`, unlock. -/
def sarena_malloc (a : SArena) (p : Provider) (size : Nat) :
    Option (Option Addr × sa_err × SArena × Provider) :=
  _sarena_malloc a p size

/-- `sarena_calloc`: like `sarena_malloc`, additionally `memset`s the block
to zero on success — pool contents are not modelled, so the arena state is
that of `_sarena_malloc`. -/
def sarena_calloc (a : SArena) (p : Provider) (size : Nat) :
    Option (Option Addr × sa_err × SArena × Provider) :=
  _sarena_malloc a p size

/-- `sarena_rewind`: no-op on an empty list; otherwise zero every region's
`_used_cap` and, when more than one region exists, point the rewind
iterator at the head (otherwise it is left as it was).  No provider call
is made. -/
def sarena_rewind (a : SArena) : SArena :=
  if a.regions.length = 0 then a
  else
    { a with
      regions := a.regions.map (fun r => { r with used_cap := 0 }),
      rewind_it := if a.regions.length > 1 then some 0 else a.rewind_it }

/-- The `while(count > 0) pop_front` loop of `sarena_reset` /
`sarena_destroy`: destroy every region front to back. -/
def popAll (rs : List Region) (p : Provider) : Provider :=
  match rs with
  | [] => p
  | r :: rest => popAll rest (_region_destroy r p)

/-- `sarena_reset`: pop every region, then re-run `_sarena_init` with the
saved `_region_cap`, discarding its error code exactly as the C does. -/
def sarena_reset (a : SArena) (p : Provider) : SArena × Provider :=
  let p1 := popAll a.regions p
  let a1 : SArena := { a with regions := [] }
  match _sarena_init a1 a.region_cap p1 with
  | (_, a2, p2) => (a2, p2)

/-- Run a sequence of `sarena_malloc` calls, collecting each call's
returned address (`none` for an error) alongside the final state.  The
undefined-behaviour case records `none` and leaves the state unchanged; it
never occurs in the runs this development reasons about. -/
def runMallocs (a : SArena) (p : Provider) : List Nat → List (Option Addr) × SArena × Provider
  | [] => ([], a, p)
  | size :: rest =>
    match _sarena_malloc a p size with
    | some (res, _, a1, p1) =>
      let t := runMallocs a1 p1 rest
      (res :: t.1, t.2)
    | none =>
      let t := runMallocs a p rest
      (none :: t.1, t.2)

/-- Sum of the sizes of the successful allocations, among the recorded
`(size, result)` pairs, that were served from pool `rid`. -/
def tallyList (entries : List (Nat × Option Addr)) (rid : Nat) : Nat :=
  match entries with
  | [] => 0
  | e :: rest =>
    (match e.2 with
     | some ad => if ad.1 = rid then e.1 else 0
     | none => 0) + tallyList rest rid

/-- One step of greedy region-by-region packing: state is
`(regions occupied so far, bytes used in the current region)`. -/
def greedyStep (cap : Nat) (st : Nat × Nat) (size : Nat) : Nat × Nat :=
  if size > cap - st.2 then (st.1 + 1, size) else (st.1, st.2 + size)

/-- Greedy region-by-region footprint of a request sequence: how many
regions of capacity `cap` the sequence occupies when each region is filled
until a request no longer fits. -/
def greedy (cap : Nat) (sizes : List Nat) : Nat × Nat :=
  sizes.foldl (greedyStep cap) (1, 0)

/-- State invariant, maintained by every operation of the allocator:
capacity positive, every region within bounds and of the arena's fixed
capacity, pool ids handed out by the provider (hence below its counter),
and the rewind iterator — when set — a valid index strictly before the
tail with every region after it unused. -/
structure ArenaInv (a : SArena) (p : Provider) : Prop where
  cap_pos : 0 < a.region_cap
  used_le : ∀ (i : Nat) (r : Region), a.regions[i]? = some r → r.used_cap ≤ r.total_cap
  total_eq : ∀ (i : Nat) (r : Region), a.regions[i]? = some r → r.total_cap = a.region_cap
  ids_lt : ∀ (i : Nat) (r : Region), a.regions[i]? = some r → r.pool_id < p.ctr
  cursor_lt : ∀ i : Nat, a.rewind_it = some i → i + 1 < a.regions.length
  cursor_zero : ∀ (i j : Nat) (r : Region), a.rewind_it = some i → i < j →
    a.regions[j]? = some r → r.used_cap = 0

/-- Arena states reachable through the public API, beginning with a
successful `sarena_create` and stepping through `sarena_malloc`,
`sarena_calloc`, `sarena_rewind` and `sarena_reset` (each with whatever
provider behaviour).  The `some`-result hypothesis on the allocation steps
only rules out the modelled undefined behaviour, which these states never
trigger anyway. -/
inductive Reachable : SArena → Provider → Prop where
  | created (region_cap : Nat) (p p2 : Provider) (a : SArena) (e : sa_err) :
      sarena_create region_cap p = (some a, e, p2) → Reachable a p2
  | malloc_step (a : SArena) (p : Provider) (size : Nat)
      (out : Option Addr × sa_err × SArena × Provider) :
      Reachable a p → sarena_malloc a p size = some out →
      Reachable out.2.2.1 out.2.2.2
  | calloc_step (a : SArena) (p : Provider) (size : Nat)
      (out : Option Addr × sa_err × SArena × Provider) :
      Reachable a p → sarena_calloc a p size = some out →
      Reachable out.2.2.1 out.2.2.2
  | rewind_step (a : SArena) (p : Provider) :
      Reachable a p → Reachable (sarena_rewind a) p
  | reset_step (a : SArena) (p : Provider) :
      Reachable a p → Reachable (sarena_reset a p).1 (sarena_reset a p).2

/-- A provider whose every allocation succeeds, used for witness states. -/
def provider0 : Provider := Provider.mk (fun _ => true) 0 []

/-- Provider state after `sarena_create 1 provider0`. -/
def prov1 : Provider := Provider.mk (fun _ => true) 3 [2, 1, 0]

/-- The arena produced by `sarena_create 1 provider0`. -/
def arena1 : SArena := SArena.mk [Region.mk 0 1 2 1] 1 none 0

/-- `arena1` after one `sarena_malloc` of 1 byte (tail region now full). -/
def arenaF : SArena := SArena.mk [Region.mk 1 1 2 1] 1 none 0

/-- Provider state after the second allocation forced a region append. -/
def prov2 : Provider := Provider.mk (fun _ => true) 5 [4, 3, 2, 1, 0]

/-- `arenaF` after a second 1-byte allocation: two full regions. -/
def arena2 : SArena := SArena.mk [Region.mk 1 1 2 1, Region.mk 1 1 4 3] 1 none 0

/-- `arena2` after `sarena_rewind`: both regions empty, cursor at the head. -/
def arenaRw : SArena := SArena.mk [Region.mk 0 1 2 1, Region.mk 0 1 4 3] 1 (some 0) 0

/-- A provider whose every allocation fails. -/
def providerBad : Provider := Provider.mk (fun _ => false) 0 []

/-- A provider whose first five allocations succeed and all later ones
fail: enough to build a two-region arena, after which every allocation
fails. -/
def providerK : Provider := Provider.mk (fun n => Nat.blt n 5) 0 []

/-- `providerK` after `sarena_create 1`. -/
def provK1 : Provider := Provider.mk (fun n => Nat.blt n 5) 3 [2, 1, 0]

/-- `providerK` after create and two 1-byte allocations (five calls made;
every further call fails). -/
def provK2 : Provider := Provider.mk (fun n => Nat.blt n 5) 5 [4, 3, 2, 1, 0]

/-- Correspondence between an arena replaying allocations after `rewind`
and the greedy region-by-region packing state `(g, u)`: `g` regions of the
pre-rewind chain are occupied so far and the currently filled one holds
`u` bytes.  While `g < k` the rewind cursor sits on region `g - 1`; once
the walk reaches the tail (`g = k`) the cursor is cleared and the tail is
the active region. -/
def RwState (cap k g u : Nat) (a : SArena) : Prop :=
  a.region_cap = cap ∧ a.regions.length = k ∧ 1 ≤ g ∧ u ≤ cap ∧
  (∀ (i : Nat) (r : Region), a.regions[i]? = some r →
    r.total_cap = cap ∧ r.used_cap ≤ cap) ∧
  ((g < k ∧ a.rewind_it = some (g - 1) ∧
      (∀ r : Region, a.regions[g - 1]? = some r → r.used_cap = u) ∧
      (∀ (j : Nat) (r : Region), g ≤ j → a.regions[j]? = some r → r.used_cap = 0)) ∨
   (g = k ∧ a.rewind_it = none ∧
      (∀ r : Region, a.regions[k - 1]? = some r → r.used_cap = u)))

/-- The arena produced by `sarena_create 10 provider0`. -/
def arenaT10 : SArena := SArena.mk [Region.mk 0 10 2 1] 10 none 0

/-- `arenaT10` after `sarena_malloc` of 6 bytes. -/
def arenaT10b : SArena := SArena.mk [Region.mk 6 10 2 1] 10 none 0

/-- `arenaT10b` after another 6-byte allocation (a second region was
appended: 6 > 10 - 6). -/
def arenaT10c : SArena := SArena.mk [Region.mk 6 10 2 1, Region.mk 6 10 4 3] 10 none 0

/-- `arenaT10c` after `sarena_rewind`: both capacity-10 regions empty,
cursor at the head; pre-rewind total capacity 20. -/
def arenaR10 : SArena := SArena.mk [Region.mk 0 10 2 1, Region.mk 0 10 4 3] 10 (some 0) 0

/-- Invariant of a pure-allocation run from a freshly created arena.
`done` is the trace so far: each entry pairs the requested size with the
returned address (or `none` on failure).  The arena stays in normal mode,
every region's `usedCapacity` equals the total of the trace's successful
allocations served from its pool, pool ids grow strictly front to back,
and every address handed out so far carries a pool id below the provider
counter (so a freshly allocated pool can never collide with it). -/
def RunInv (cap : Nat) (done : List (Nat × Option Addr)) (a : SArena) (p : Provider) : Prop :=
  a.region_cap = cap ∧ a.rewind_it = none ∧ a.regions.length ≠ 0 ∧
  (∀ (i : Nat) (r : Region), a.regions[i]? = some r →
    r.total_cap = cap ∧ r.used_cap ≤ cap ∧ r.pool_id < p.ctr) ∧
  (∀ (i j : Nat) (ri rj : Region), i < j → a.regions[i]? = some ri →
    a.regions[j]? = some rj → ri.pool_id < rj.pool_id) ∧
  (∀ (i : Nat) (r : Region), a.regions[i]? = some r →
    r.used_cap = tallyList done r.pool_id) ∧
  (∀ e ∈ done, ∀ ad : Addr, e.2 = some ad → ad.1 < p.ctr)

theorem push_back_ok (rs : List Region) (cap : Nat) (p : Provider)
    (h1 : p.ok p.ctr = true) (h2 : p.ok (p.ctr + 1) = true) :
    _region_list_push_back rs cap p =
      (some (rs ++ [{ used_cap := 0, total_cap := cap, pool_id := p.ctr + 1, rec_id := p.ctr }]),
       { p with ctr := p.ctr + 2, live := (p.ctr + 1) :: p.ctr :: p.live }) := by
  simp [_region_list_push_back, _region_alloc, pmalloc, h1, h2]

theorem push_back_fail1 (rs : List Region) (cap : Nat) (p : Provider)
    (h1 : p.ok p.ctr = false) :
    _region_list_push_back rs cap p = (none, { p with ctr := p.ctr + 1 }) := by
  simp [_region_list_push_back, _region_alloc, pmalloc, h1]

theorem push_back_fail2 (rs : List Region) (cap : Nat) (p : Provider)
    (h1 : p.ok p.ctr = true) (h2 : p.ok (p.ctr + 1) = false) :
    _region_list_push_back rs cap p = (none, { p with ctr := p.ctr + 2 }) := by
  simp [_region_list_push_back, _region_alloc, pmalloc, pfree, h1, h2]

theorem create_fail_arena (cap : Nat) (p : Provider) (h1 : p.ok p.ctr = false) :
    sarena_create cap p = (none, sa_err.malloc_fail, { p with ctr := p.ctr + 1 }) := by
  simp [sarena_create, pmalloc, h1]

theorem create_invalid (p : Provider) (h1 : p.ok p.ctr = true) :
    sarena_create 0 p = (none, sa_err.invalid_arg, { p with ctr := p.ctr + 1 }) := by
  simp [sarena_create, pmalloc, _sarena_init, pfree, h1]

theorem create_fail_rec (cap : Nat) (p : Provider) (hc : cap ≠ 0)
    (h1 : p.ok p.ctr = true) (h2 : p.ok (p.ctr + 1) = false) :
    sarena_create cap p = (none, sa_err.malloc_fail, { p with ctr := p.ctr + 2 }) := by
  simp [sarena_create, pmalloc, _sarena_init, pfree, hc,
    push_back_fail1 [] cap { p with ctr := p.ctr + 1, live := p.ctr :: p.live } (by simpa using h2), h1]

theorem create_fail_pool (cap : Nat) (p : Provider) (hc : cap ≠ 0)
    (h1 : p.ok p.ctr = true) (h2 : p.ok (p.ctr + 1) = true) (h3 : p.ok (p.ctr + 2) = false) :
    sarena_create cap p = (none, sa_err.malloc_fail, { p with ctr := p.ctr + 3 }) := by
  have hpb := push_back_fail2 [] cap { p with ctr := p.ctr + 1, live := p.ctr :: p.live }
    (by simpa using h2) (by simpa [Nat.add_assoc] using h3)
  simp [sarena_create, pmalloc, _sarena_init, pfree, hc, h1, hpb, Nat.add_assoc]

theorem create_ok (cap : Nat) (p : Provider) (hc : cap ≠ 0)
    (h1 : p.ok p.ctr = true) (h2 : p.ok (p.ctr + 1) = true) (h3 : p.ok (p.ctr + 2) = true) :
    sarena_create cap p =
      (some { regions := [{ used_cap := 0, total_cap := cap, pool_id := p.ctr + 2, rec_id := p.ctr + 1 }],
              region_cap := cap, rewind_it := none, arena_id := p.ctr },
       sa_err.success,
       { p with ctr := p.ctr + 3, live := (p.ctr + 2) :: (p.ctr + 1) :: p.ctr :: p.live }) := by
  have hpb := push_back_ok [] cap { p with ctr := p.ctr + 1, live := p.ctr :: p.live }
    (by simpa using h2) (by simpa [Nat.add_assoc] using h3)
  simp [sarena_create, pmalloc, _sarena_init, hc, h1, hpb, Nat.add_assoc]

theorem push_back_ctr_le (rs : List Region) (cap : Nat) (p : Provider) :
    p.ctr ≤ (_region_list_push_back rs cap p).2.ctr := by
  by_cases h1 : p.ok p.ctr = true
  · by_cases h2 : p.ok (p.ctr + 1) = true
    · rw [push_back_ok rs cap p h1 h2]; simp
    · rw [push_back_fail2 rs cap p h1 (by simpa using h2)]; simp
  · rw [push_back_fail1 rs cap p (by simpa using h1)]; simp

theorem arena_inv_singleton (cap pid rid aid : Nat) (p : Provider)
    (hcap : 0 < cap) (hid : pid < p.ctr) :
    ArenaInv { regions := [{ used_cap := 0, total_cap := cap, pool_id := pid, rec_id := rid }],
               region_cap := cap, rewind_it := none, arena_id := aid } p := by
  constructor
  · simpa using hcap
  · intro i r hr; rcases i with - | i
    · simp only [List.getElem?_cons_zero, Option.some.injEq] at hr; subst hr; simp
    · simp at hr
  · intro i r hr; rcases i with - | i
    · simp only [List.getElem?_cons_zero, Option.some.injEq] at hr; subst hr; simp
    · simp at hr
  · intro i r hr; rcases i with - | i
    · simp only [List.getElem?_cons_zero, Option.some.injEq] at hr; subst hr; simpa using hid
    · simp at hr
  · intro i hi; simp at hi
  · intro i j r hi; simp at hi

theorem arena_inv_empty (cap aid : Nat) (p : Provider) (hcap : 0 < cap) :
    ArenaInv { regions := [], region_cap := cap, rewind_it := none, arena_id := aid } p := by
  constructor
  · simpa using hcap
  · intro i r hr; simp at hr
  · intro i r hr; simp at hr
  · intro i r hr; simp at hr
  · intro i hi; simp at hi
  · intro i j r hi; simp at hi

theorem create_inv (region_cap : Nat) (p p2 : Provider) (a : SArena) (e : sa_err)
    (h : sarena_create region_cap p = (some a, e, p2)) : ArenaInv a p2 := by
  by_cases h1 : p.ok p.ctr = true
  · by_cases hc : region_cap = 0
    · subst hc; rw [create_invalid p h1] at h; simp at h
    · by_cases h2 : p.ok (p.ctr + 1) = true
      · by_cases h3 : p.ok (p.ctr + 2) = true
        · rw [create_ok region_cap p hc h1 h2 h3] at h
          simp only [Prod.mk.injEq, Option.some.injEq] at h
          obtain ⟨ha, -, hp⟩ := h
          subst ha; subst hp
          exact arena_inv_singleton region_cap (p.ctr + 2) (p.ctr + 1) p.ctr _
            (Nat.pos_of_ne_zero hc) (by simp)
        · rw [create_fail_pool region_cap p hc h1 h2 (by simpa using h3)] at h; simp at h
      · rw [create_fail_rec region_cap p hc h1 (by simpa using h2)] at h; simp at h
  · rw [create_fail_arena region_cap p (by simpa using h1)] at h; simp at h

theorem push_back_some (rs rs1 : List Region) (cap : Nat) (p p1 : Provider)
    (h : _region_list_push_back rs cap p = (some rs1, p1)) :
    rs1 = rs ++ [{ used_cap := 0, total_cap := cap, pool_id := p.ctr + 1, rec_id := p.ctr }] ∧
    p1 = { p with ctr := p.ctr + 2, live := (p.ctr + 1) :: p.ctr :: p.live } ∧
    p.ok p.ctr = true ∧ p.ok (p.ctr + 1) = true := by
  by_cases h1 : p.ok p.ctr = true
  · by_cases h2 : p.ok (p.ctr + 1) = true
    · rw [push_back_ok rs cap p h1 h2] at h
      simp only [Prod.mk.injEq, Option.some.injEq] at h
      exact ⟨h.1.symm, h.2.symm, h1, h2⟩
    · rw [push_back_fail2 rs cap p h1 (by simpa using h2)] at h; simp at h
  · rw [push_back_fail1 rs cap p (by simpa using h1)] at h; simp at h

theorem popAll_ctr (rs : List Region) (p : Provider) : (popAll rs p).ctr = p.ctr := by
  induction rs generalizing p with
  | nil => rfl
  | cons r rest ih => simp [popAll, _region_destroy, pfree, ih]

theorem popAll_ok (rs : List Region) (p : Provider) : (popAll rs p).ok = p.ok := by
  induction rs generalizing p with
  | nil => rfl
  | cons r rest ih => simp [popAll, _region_destroy, pfree, ih]

theorem rewind_inv (a : SArena) (p : Provider) (hI : ArenaInv a p) :
    ArenaInv (sarena_rewind a) p := by
  unfold sarena_rewind
  split
  · exact hI
  · constructor
    · simpa using hI.cap_pos
    · intro i r hr
      simp only [List.getElem?_map, Option.map_eq_some'] at hr
      obtain ⟨r0, hr0, rfl⟩ := hr
      simp
    · intro i r hr
      simp only [List.getElem?_map, Option.map_eq_some'] at hr
      obtain ⟨r0, hr0, rfl⟩ := hr
      simpa using hI.total_eq i r0 hr0
    · intro i r hr
      simp only [List.getElem?_map, Option.map_eq_some'] at hr
      obtain ⟨r0, hr0, rfl⟩ := hr
      simpa using hI.ids_lt i r0 hr0
    · intro i hi
      simp only at hi
      split at hi
      · rename_i hgt1
        cases hi
        simpa using hgt1
      · simpa using hI.cursor_lt i hi
    · intro i j r hcur hij hr
      simp only [List.getElem?_map, Option.map_eq_some'] at hr
      obtain ⟨r0, hr0, rfl⟩ := hr
      simp

theorem reset_inv (a : SArena) (p : Provider) (hI : ArenaInv a p) :
    ArenaInv (sarena_reset a p).1 (sarena_reset a p).2 := by
  have hcap : ¬(a.region_cap = 0) := by have := hI.cap_pos; omega
  unfold sarena_reset _sarena_init
  simp only [if_neg hcap]
  rcases hpb : _region_list_push_back [] a.region_cap (popAll a.regions p) with ⟨os, p1⟩
  rcases os with - | rs1
  · simpa [hpb] using arena_inv_empty a.region_cap a.arena_id p1 hI.cap_pos
  · obtain ⟨hrs1, hp1, -, -⟩ := push_back_some _ _ _ _ _ hpb
    subst hrs1; subst hp1
    simpa [hpb] using
      arena_inv_singleton a.region_cap ((popAll a.regions p).ctr + 1) (popAll a.regions p).ctr
        a.arena_id _ hI.cap_pos (by simp)

theorem getElem?_append_set (rs : List Region) (x y : Region) (i : Nat) :
    ((rs ++ [x]).set rs.length y)[i]? = if i = rs.length then some y else rs[i]? := by
  by_cases hi : i = rs.length
  · subst hi
    rw [List.getElem?_set_self (by simp)]
    simp
  · rw [List.getElem?_set_ne (Ne.symm hi)]
    rw [List.getElem?_append]
    split
    · simp [hi]
    · rename_i hlt
      have h1 : rs[i]? = none := List.getElem?_len_le (by omega)
      have h2 : [x][i - rs.length]? = (none : Option Region) :=
        List.getElem?_len_le (by simp; omega)
      simp [h1, h2, hi]

theorem malloc_inv (a : SArena) (p : Provider) (size : Nat)
    (out : Option Addr × sa_err × SArena × Provider)
    (hI : ArenaInv a p) (h : _sarena_malloc a p size = some out) :
    ArenaInv out.2.2.1 out.2.2.2 := by
  unfold _sarena_malloc at h
  split at h
  · cases h; exact hI
  · rename_i hvalid
    rw [not_or] at hvalid
    obtain ⟨hgt, hne0⟩ := hvalid
    have hle : size ≤ a.region_cap := by omega
    split at h
    · simp at h
    · rename_i ci hci
      split at h
      · simp at h
      · rename_i curr hcurr
        have hci_lt : ci < a.regions.length := (List.getElem?_eq_some.mp hcurr).1
        split at h
        · rename_i hex
          split at h
          · -- normal mode: push back a region
            rename_i hrw
            have hci_eq : ci = a.regions.length - 1 := by
              simp only [activeIdx, hrw] at hci
              split at hci
              · simp at hci
              · exact (Option.some.inj hci).symm
            split at h
            · -- push back failed: arena unchanged, provider advanced
              rename_i p1 hpb
              cases h
              dsimp only
              refine ⟨hI.cap_pos, hI.used_le, hI.total_eq, ?_, hI.cursor_lt, hI.cursor_zero⟩
              intro i r hr
              have hold := hI.ids_lt i r hr
              have hctr := push_back_ctr_le a.regions a.region_cap p
              rw [hpb] at hctr
              dsimp only at hctr
              omega
            · -- push back succeeded: carve from the appended region
              rename_i rs1 p1 hpb
              obtain ⟨hrs1, hp1, -, -⟩ := push_back_some _ _ _ _ _ hpb
              subst hrs1; subst hp1
              have hci1 : ci + 1 = a.regions.length := by omega
              have hidx :
                  (a.regions ++
                    [{ used_cap := 0, total_cap := a.region_cap,
                       pool_id := p.ctr + 1, rec_id := p.ctr }])[ci + 1]? =
                  some { used_cap := 0, total_cap := a.region_cap,
                         pool_id := p.ctr + 1, rec_id := p.ctr } := by
                rw [List.getElem?_append_right (by omega)]
                have hz : ci + 1 - a.regions.length = 0 := by omega
                rw [hz]
                simp
              rw [hidx] at h
              cases h
              dsimp only
              constructor
              · exact hI.cap_pos
              · intro i r hr
                rw [hci1, getElem?_append_set] at hr
                by_cases hj : i = a.regions.length
                · rw [if_pos hj] at hr
                  cases hr
                  dsimp only
                  omega
                · rw [if_neg hj] at hr
                  exact hI.used_le i r hr
              · intro i r hr
                rw [hci1, getElem?_append_set] at hr
                by_cases hj : i = a.regions.length
                · rw [if_pos hj] at hr
                  cases hr
                  rfl
                · rw [if_neg hj] at hr
                  exact hI.total_eq i r hr
              · intro i r hr
                rw [hci1, getElem?_append_set] at hr
                by_cases hj : i = a.regions.length
                · rw [if_pos hj] at hr
                  cases hr
                  dsimp only
                  omega
                · rw [if_neg hj] at hr
                  have := hI.ids_lt i r hr
                  dsimp only
                  omega
              · intro i hi
                dsimp only at hi
                rw [hrw] at hi
                cases hi
              · intro i j r hi
                dsimp only at hi
                rw [hrw] at hi
                cases hi
          · -- rewind mode: advance the iterator
            rename_i i hrw
            have hci_eq : ci = i := by
              simp only [activeIdx, hrw] at hci
              exact (Option.some.inj hci).symm
            have hlt : i + 1 < a.regions.length := hI.cursor_lt i hrw
            split at h
            · simp at h
            · rename_i nr hnr
              cases h
              dsimp only
              have hnr0 : nr.used_cap = 0 :=
                hI.cursor_zero i (i + 1) nr hrw (by omega) hnr
              have htot := hI.total_eq (i + 1) nr hnr
              constructor
              · exact hI.cap_pos
              · intro j r hr
                dsimp only at hr
                by_cases hj : j = i + 1
                · subst hj
                  rw [List.getElem?_set_self (by omega)] at hr
                  cases hr
                  dsimp only
                  omega
                · rw [List.getElem?_set_ne (by omega)] at hr
                  exact hI.used_le j r hr
              · intro j r hr
                dsimp only at hr
                by_cases hj : j = i + 1
                · subst hj
                  rw [List.getElem?_set_self (by omega)] at hr
                  cases hr
                  exact htot
                · rw [List.getElem?_set_ne (by omega)] at hr
                  exact hI.total_eq j r hr
              · intro j r hr
                dsimp only at hr
                by_cases hj : j = i + 1
                · subst hj
                  rw [List.getElem?_set_self (by omega)] at hr
                  cases hr
                  exact hI.ids_lt (i + 1) nr hnr
                · rw [List.getElem?_set_ne (by omega)] at hr
                  exact hI.ids_lt j r hr
              · intro j hj
                dsimp only at hj
                split at hj
                · cases hj
                · rename_i hnt
                  cases hj
                  rw [List.length_set]
                  omega
              · intro j k r hj hjk hr
                dsimp only at hj hr
                split at hj
                · cases hj
                · rename_i hnt
                  cases hj
                  rw [List.getElem?_set_ne (by omega)] at hr
                  exact hI.cursor_zero i k r hrw (by omega) hr
        · -- current region has room: carve in place
          rename_i hfit
          cases h
          dsimp only
          constructor
          · exact hI.cap_pos
          · intro j r hr
            dsimp only at hr
            by_cases hj : j = ci
            · subst hj
              rw [List.getElem?_set_self (by omega)] at hr
              cases hr
              have h1 := hI.used_le j curr hcurr
              dsimp only
              omega
            · rw [List.getElem?_set_ne (by omega)] at hr
              exact hI.used_le j r hr
          · intro j r hr
            dsimp only at hr
            by_cases hj : j = ci
            · subst hj
              rw [List.getElem?_set_self (by omega)] at hr
              cases hr
              exact hI.total_eq j curr hcurr
            · rw [List.getElem?_set_ne (by omega)] at hr
              exact hI.total_eq j r hr
          · intro j r hr
            dsimp only at hr
            by_cases hj : j = ci
            · subst hj
              rw [List.getElem?_set_self (by omega)] at hr
              cases hr
              exact hI.ids_lt j curr hcurr
            · rw [List.getElem?_set_ne (by omega)] at hr
              exact hI.ids_lt j r hr
          · intro j hj
            dsimp only at hj
            have := hI.cursor_lt j hj
            rw [List.length_set]
            omega
          · intro j k r hj hjk hr
            dsimp only at hj hr
            have hcij : ci = j := by
              simp only [activeIdx, hj] at hci
              exact (Option.some.inj hci).symm
            rw [List.getElem?_set_ne (by omega)] at hr
            exact hI.cursor_zero j k r hj hjk hr

theorem reachable_inv (a : SArena) (p : Provider) (h : Reachable a p) : ArenaInv a p := by
  induction h with
  | created region_cap p p2 a e hc => exact create_inv region_cap p p2 a e hc
  | malloc_step a p size out hr hm ih => exact malloc_inv a p size out ih hm
  | calloc_step a p size out hr hm ih => exact malloc_inv a p size out ih hm
  | rewind_step a p hr ih => exact rewind_inv a p ih
  | reset_step a p hr ih => exact reset_inv a p ih

theorem reach_arena1 : Reachable arena1 prov1 :=
  Reachable.created 1 provider0 prov1 arena1 sa_err.success rfl

theorem reach_arenaF : Reachable arenaF prov1 :=
  Reachable.malloc_step arena1 prov1 1 (some (2, 0), sa_err.success, arenaF, prov1)
    reach_arena1 rfl

theorem reach_arena2 : Reachable arena2 prov2 :=
  Reachable.malloc_step arenaF prov1 1 (some (4, 0), sa_err.success, arena2, prov2)
    reach_arenaF rfl

theorem reach_arenaRw : Reachable arenaRw prov2 :=
  Reachable.rewind_step arena2 prov2 reach_arena2

/-- C9: in every reachable state, every region of the arena satisfies
`0 ≤ usedCapacity ≤ totalCapacity` (the lower bound is inherent in the
natural-number model of `size_t`), and its `totalCapacity` equals the
arena's fixed `regionCapacity`. -/
theorem region_capacity_invariant (a : SArena) (p : Provider) (h : Reachable a p) :
    ∀ (i : Nat) (r : Region), a.regions[i]? = some r →
      r.used_cap ≤ r.total_cap ∧ r.total_cap = a.region_cap := by
  intro i r hr
  have hI := reachable_inv a p h
  exact ⟨hI.used_le i r hr, hI.total_eq i r hr⟩

theorem region_capacity_invariant_witness :
    (Region.mk 1 1 2 1).used_cap ≤ (Region.mk 1 1 2 1).total_cap ∧
    (Region.mk 1 1 2 1).total_cap = arena2.region_cap :=
  region_capacity_invariant arena2 prov2 reach_arena2 0 (Region.mk 1 1 2 1) rfl

/-- C10: in every reachable state with a set rewind cursor, the region list
has at least two regions, the cursor is a valid index strictly before the
tail (so the advance step's `cursor->next` dereference is well-defined),
and every region strictly after the cursor has `usedCapacity = 0`. -/
theorem rewind_cursor_invariant (a : SArena) (p : Provider) (h : Reachable a p) :
    ∀ i : Nat, a.rewind_it = some i →
      2 ≤ a.regions.length ∧ i + 1 < a.regions.length ∧
      ∀ (j : Nat) (r : Region), i < j → a.regions[j]? = some r → r.used_cap = 0 := by
  intro i hi
  have hI := reachable_inv a p h
  have h1 := hI.cursor_lt i hi
  exact ⟨by omega, h1, fun j r hij hr => hI.cursor_zero i j r hi hij hr⟩

theorem rewind_cursor_invariant_witness :
    2 ≤ arenaRw.regions.length ∧ (Region.mk 0 1 4 3).used_cap = 0 :=
  ⟨(rewind_cursor_invariant arenaRw prov2 reach_arenaRw 0 rfl).1,
   (rewind_cursor_invariant arenaRw prov2 reach_arenaRw 0 rfl).2.2 1 (Region.mk 0 1 4 3)
     (by decide) rfl⟩

/-- C6: `rewind` is a no-op on an empty region list; otherwise it zeroes
every region's `usedCapacity` — the provider is not consulted at all, so no
memory is released (visible in `sarena_rewind`'s type, which does not even
take the provider) — and afterwards the rewind cursor is the list head
(index 0) when more than one region exists and `none` when exactly one
region exists. -/
theorem rewind_characterization (a : SArena) (p : Provider) (h : Reachable a p) :
    (a.regions.length = 0 → sarena_rewind a = a) ∧
    (a.regions.length ≠ 0 →
      (∀ (i : Nat) (r : Region), (sarena_rewind a).regions[i]? = some r → r.used_cap = 0) ∧
      (sarena_rewind a).regions.length = a.regions.length ∧
      (1 < a.regions.length → (sarena_rewind a).rewind_it = some 0) ∧
      (a.regions.length = 1 → (sarena_rewind a).rewind_it = none)) := by
  have hI := reachable_inv a p h
  unfold sarena_rewind
  by_cases hz : a.regions.length = 0
  · rw [if_pos hz]
    exact ⟨fun _ => rfl, fun hco => absurd hz hco⟩
  · rw [if_neg hz]
    refine ⟨fun hco => absurd hco hz, fun _ => ⟨?_, ?_, ?_, ?_⟩⟩
    · intro i r hr
      dsimp only at hr
      rw [List.getElem?_map] at hr
      rcases ho : a.regions[i]? with - | r0
      · rw [ho] at hr; cases hr
      · rw [ho] at hr
        cases hr
        rfl
    · dsimp only
      exact List.length_map a.regions _
    · intro hgt
      dsimp only
      rw [if_pos hgt]
    · intro hone
      dsimp only
      have hngt : ¬(1 < a.regions.length) := by omega
      rw [if_neg hngt]
      rcases hrw : a.rewind_it with - | i
      · rfl
      · have := hI.cursor_lt i hrw
        omega

theorem rewind_characterization_witness :
    (sarena_rewind arena2).regions.length = arena2.regions.length ∧
    (sarena_rewind arena2).rewind_it = some 0 :=
  ⟨((rewind_characterization arena2 prov2 reach_arena2).2 (by decide)).2.1,
   ((rewind_characterization arena2 prov2 reach_arena2).2 (by decide)).2.2.1 (by decide)⟩

/-- C7: whenever `allocate` takes the exhausted-active-region branch — with
a successful append in normal mode, or advancing the rewind cursor in
rewind mode — the new active region exists at the old active index plus
one (the active region's `next` link is non-null), its free capacity is at
least the requested size (it starts fully free with
`totalCapacity = regionCapacity ≥ size`), and the carve retried without a
second capacity check stays within the pool bounds: the returned offset is
0 and `0 + size ≤ regionCapacity`, the new region's `usedCapacity` ending
at `size ≤ totalCapacity`. -/
theorem exhausted_branch_safety (a : SArena) (p : Provider) (size : Nat)
    (h : Reachable a p) (hpos : 0 < size) (hcap : size ≤ a.region_cap)
    (ci : Nat) (curr : Region)
    (hci : activeIdx a = some ci) (hcurr : a.regions[ci]? = some curr)
    (hex : size > curr.total_cap - curr.used_cap)
    (hap : a.rewind_it = none → (_region_list_push_back a.regions a.region_cap p).1 ≠ none) :
    ∃ addr a2 p2, sarena_malloc a p size = some (some addr, sa_err.success, a2, p2) ∧
      addr.2 = 0 ∧ addr.2 + size ≤ a.region_cap ∧
      ∃ nr : Region, a2.regions[ci + 1]? = some nr ∧ nr.used_cap = size ∧
        nr.total_cap = a.region_cap := by
  have hI := reachable_inv a p h
  unfold sarena_malloc _sarena_malloc
  rw [if_neg (by omega)]
  simp only [hci, hcurr]
  rw [if_pos hex]
  rcases hrw : a.rewind_it with - | i
  · -- normal mode: the append succeeds by hypothesis
    have hci_eq : ci = a.regions.length - 1 ∧ a.regions.length ≠ 0 := by
      simp only [activeIdx, hrw] at hci
      split at hci
      · cases hci
      · exact ⟨(Option.some.inj hci).symm, by assumption⟩
    rcases hpb : _region_list_push_back a.regions a.region_cap p with ⟨os, p1⟩
    rcases os with - | rs1
    · exact absurd (by rw [hpb]) (hap hrw)
    · obtain ⟨hrs1, hp1, -, -⟩ := push_back_some _ _ _ _ _ hpb
      subst hrs1; subst hp1
      have hci1 : ci + 1 = a.regions.length := by omega
      have hidx :
          (a.regions ++
            [{ used_cap := 0, total_cap := a.region_cap,
               pool_id := p.ctr + 1, rec_id := p.ctr }])[ci + 1]? =
          some { used_cap := 0, total_cap := a.region_cap,
                 pool_id := p.ctr + 1, rec_id := p.ctr } := by
        rw [List.getElem?_append_right (by omega)]
        have hz : ci + 1 - a.regions.length = 0 := by omega
        rw [hz]
        simp
      simp only [hpb, hidx]
      refine ⟨(p.ctr + 1, 0), _, _, rfl, rfl, by omega, ?_⟩
      refine ⟨{ used_cap := 0 + size, total_cap := a.region_cap,
                pool_id := p.ctr + 1, rec_id := p.ctr }, ?_,
        by show 0 + size = size; omega, rfl⟩
      dsimp only
      rw [List.getElem?_set_self (by simp; omega)]
  · -- rewind mode: advance the cursor to the next region
    have hci_eq : ci = i := by
      simp only [activeIdx, hrw] at hci
      exact (Option.some.inj hci).symm
    subst hci_eq
    have hlt := hI.cursor_lt ci hrw
    rcases hnr : a.regions[ci + 1]? with - | nr
    · rw [List.getElem?_eq_getElem (show ci + 1 < a.regions.length by omega)] at hnr
      cases hnr
    · have hnr0 : nr.used_cap = 0 := hI.cursor_zero ci (ci + 1) nr hrw (by omega) hnr
      have htot : nr.total_cap = a.region_cap := hI.total_eq (ci + 1) nr hnr
      simp only [hnr]
      refine ⟨(nr.pool_id, nr.used_cap), _, _, rfl, hnr0, by omega, ?_⟩
      refine ⟨{ used_cap := nr.used_cap + size, total_cap := nr.total_cap,
                pool_id := nr.pool_id, rec_id := nr.rec_id }, ?_,
        by show nr.used_cap + size = size; omega,
        by show nr.total_cap = a.region_cap; omega⟩
      dsimp only
      rw [List.getElem?_set_self (by omega)]

theorem exhausted_branch_safety_witness :
    ∃ addr a2 p2, sarena_malloc arenaF prov1 1 = some (some addr, sa_err.success, a2, p2) ∧
      addr.2 = 0 ∧ addr.2 + 1 ≤ arenaF.region_cap ∧
      ∃ nr : Region, a2.regions[0 + 1]? = some nr ∧ nr.used_cap = 1 ∧
        nr.total_cap = arenaF.region_cap :=
  exhausted_branch_safety arenaF prov1 1 reach_arenaF (by decide) (by decide)
    0 (Region.mk 1 1 2 1) rfl rfl (by decide)
    (fun _ => by rw [push_back_ok _ _ _ rfl rfl]; simp)

/-- C8 counterexample: `create(0)` does not always fail with
InvalidArgument — the code mallocs the arena record before validating
`region_cap`, so when the record allocation fails the reported error is
OutOfMemory (`SA_MALLOC_FAIL`). -/
theorem create_zero_not_always_invalid_arg :
    (sarena_create 0 providerBad).2.1 = sa_err.malloc_fail ∧
    (sarena_create 0 providerBad).2.1 ≠ sa_err.invalid_arg := by
  rw [create_fail_arena 0 providerBad rfl]
  exact ⟨rfl, by simp⟩

/-- C8 amended: `create(0)` never succeeds and allocates no region (the
provider's live-block set is unchanged); it fails with InvalidArgument when
the arena-record allocation succeeds, and with OutOfMemory when even that
record allocation fails.  For `region_cap > 0`, `create` fails exactly when
one of the three underlying allocations (arena record, region record,
region pool) fails, the error is then always OutOfMemory, and every
partially constructed block is released before returning (live set
unchanged on every failure). -/
theorem create_characterization (region_cap : Nat) (p : Provider) :
    (region_cap = 0 →
      (sarena_create 0 p).1 = none ∧
      (sarena_create 0 p).2.2.live = p.live ∧
      ((sarena_create 0 p).2.1 = sa_err.invalid_arg ↔ p.ok p.ctr = true) ∧
      ((sarena_create 0 p).2.1 = sa_err.malloc_fail ↔ p.ok p.ctr = false)) ∧
    (region_cap ≠ 0 →
      ((sarena_create region_cap p).2.1 = sa_err.malloc_fail ↔
        ¬(p.ok p.ctr = true ∧ p.ok (p.ctr + 1) = true ∧ p.ok (p.ctr + 2) = true)) ∧
      ((sarena_create region_cap p).1 = none ↔
        (sarena_create region_cap p).2.1 ≠ sa_err.success) ∧
      ((sarena_create region_cap p).2.1 ≠ sa_err.success →
        (sarena_create region_cap p).2.2.live = p.live)) := by
  constructor
  · intro hz
    by_cases h1 : p.ok p.ctr = true
    · rw [create_invalid p h1]
      refine ⟨rfl, rfl, ⟨fun _ => h1, fun _ => rfl⟩, ?_⟩
      constructor
      · intro hco; cases hco
      · intro hco; rw [h1] at hco; cases hco
    · rw [create_fail_arena 0 p (by simpa using h1)]
      refine ⟨rfl, rfl, ?_, ⟨fun _ => by simpa using h1, fun _ => rfl⟩⟩
      constructor
      · intro hco; cases hco
      · intro hco; simp [hco] at h1
  · intro hnz
    by_cases h1 : p.ok p.ctr = true
    · by_cases h2 : p.ok (p.ctr + 1) = true
      · by_cases h3 : p.ok (p.ctr + 2) = true
        · rw [create_ok region_cap p hnz h1 h2 h3]
          refine ⟨?_, ?_, ?_⟩
          · constructor
            · intro hco; cases hco
            · intro hco; exact absurd ⟨h1, h2, h3⟩ hco
          · constructor
            · intro hco; cases hco
            · intro hco; exact absurd rfl hco
          · intro hco; exact absurd rfl hco
        · rw [create_fail_pool region_cap p hnz h1 h2 (by simpa using h3)]
          refine ⟨⟨fun _ => by simp [h3], fun _ => rfl⟩, ?_, fun _ => rfl⟩
          exact ⟨(fun _ hco => by cases hco), fun _ => rfl⟩
      · rw [create_fail_rec region_cap p hnz h1 (by simpa using h2)]
        refine ⟨⟨fun _ => by simp [h2], fun _ => rfl⟩, ?_, fun _ => rfl⟩
        exact ⟨(fun _ hco => by cases hco), fun _ => rfl⟩
    · rw [create_fail_arena region_cap p (by simpa using h1)]
      refine ⟨⟨fun _ => by simp [h1], fun _ => rfl⟩, ?_, fun _ => rfl⟩
      exact ⟨(fun _ hco => by cases hco), fun _ => rfl⟩

theorem create_characterization_witness :
    (sarena_create 0 providerBad).1 = none ∧
    (sarena_create 0 providerBad).2.2.live = providerBad.live :=
  ⟨((create_characterization 0 providerBad).1 rfl).1,
   ((create_characterization 0 providerBad).1 rfl).2.1⟩

theorem reset_ok_shape (a : SArena) (p : Provider) (hcap : a.region_cap ≠ 0)
    (h1 : p.ok p.ctr = true) (h2 : p.ok (p.ctr + 1) = true) :
    sarena_reset a p =
      ({ regions := [{ used_cap := 0, total_cap := a.region_cap,
                       pool_id := p.ctr + 1, rec_id := p.ctr }],
         region_cap := a.region_cap, rewind_it := none, arena_id := a.arena_id },
       { ok := p.ok, ctr := p.ctr + 2,
         live := (p.ctr + 1) :: p.ctr :: (popAll a.regions p).live }) := by
  have hok1 : (popAll a.regions p).ok (popAll a.regions p).ctr = true := by
    rw [popAll_ok, popAll_ctr]; exact h1
  have hok2 : (popAll a.regions p).ok ((popAll a.regions p).ctr + 1) = true := by
    rw [popAll_ok, popAll_ctr]; exact h2
  have hpb := push_back_ok [] a.region_cap (popAll a.regions p) hok1 hok2
  simp [sarena_reset, _sarena_init, hcap, hpb, popAll_ctr, popAll_ok]

theorem reset_fail_shape (a : SArena) (p : Provider) (hcap : a.region_cap ≠ 0)
    (hfail : ¬(p.ok p.ctr = true ∧ p.ok (p.ctr + 1) = true)) :
    (sarena_reset a p).1 =
      { regions := [], region_cap := a.region_cap, rewind_it := none,
        arena_id := a.arena_id } := by
  by_cases h1 : p.ok p.ctr = true
  · have h2 : p.ok (p.ctr + 1) = false := by
      by_cases h2 : p.ok (p.ctr + 1) = true
      · exact absurd ⟨h1, h2⟩ hfail
      · simpa using h2
    have hpb := push_back_fail2 [] a.region_cap (popAll a.regions p)
      (by rw [popAll_ok, popAll_ctr]; exact h1)
      (by rw [popAll_ok, popAll_ctr]; exact h2)
    simp [sarena_reset, _sarena_init, hcap, hpb]
  · have hpb := push_back_fail1 [] a.region_cap (popAll a.regions p)
      (by rw [popAll_ok, popAll_ctr]; simpa using h1)
    simp [sarena_reset, _sarena_init, hcap, hpb]

/-- C1 counterexample: `sarena_reset` does not keep the first region.  From
the reachable two-region arena `arena2` (pool buffers 2 and 4), reset
destroys both regions — the first region's pool buffer 2 is freed (gone
from the provider's live set) — and the post-reset arena's only region has
the freshly allocated buffer 6, not the old buffer 2. -/
theorem reset_not_keeping_first_region :
    arena2.regions.map Region.pool_id = [2, 4] ∧
    (sarena_reset arena2 prov2).1.regions.map Region.pool_id = [6] ∧
    (sarena_reset arena2 prov2).2.live = [6, 5, 0] ∧
    2 ∉ (sarena_reset arena2 prov2).2.live := by
  refine ⟨rfl, rfl, rfl, ?_⟩
  have hlive : (sarena_reset arena2 prov2).2.live = [6, 5, 0] := rfl
  rw [hlive]
  decide

/-- C1 amended: `reset` destroys every region *including* the first and
then recreates one fresh region of `regionCapacity` through the provider;
when the two provider allocations involved succeed, the arena is in
exactly the shape `create` produces — a single region with
`usedCapacity = 0`, rewind cursor cleared, the same `regionCapacity` —
but the remaining region's pool buffer is freshly allocated rather than
reused: its id differs from every pre-reset region's pool id. -/
theorem reset_fresh_first_region (a : SArena) (p : Provider) (h : Reachable a p)
    (h1 : p.ok p.ctr = true) (h2 : p.ok (p.ctr + 1) = true) :
    ∃ nr : Region,
      (sarena_reset a p).1 =
        { regions := [nr], region_cap := a.region_cap, rewind_it := none,
          arena_id := a.arena_id } ∧
      nr.used_cap = 0 ∧ nr.total_cap = a.region_cap ∧
      ∀ (i : Nat) (r : Region), a.regions[i]? = some r → r.pool_id ≠ nr.pool_id := by
  have hI := reachable_inv a p h
  have hcap : a.region_cap ≠ 0 := by have := hI.cap_pos; omega
  refine ⟨{ used_cap := 0, total_cap := a.region_cap,
            pool_id := p.ctr + 1, rec_id := p.ctr }, ?_, rfl, rfl, ?_⟩
  · rw [reset_ok_shape a p hcap h1 h2]
  · intro i r hr
    have := hI.ids_lt i r hr
    dsimp only
    omega

theorem reset_fresh_first_region_witness :
    ∃ nr : Region,
      (sarena_reset arena2 prov2).1 =
        { regions := [nr], region_cap := arena2.region_cap, rewind_it := none,
          arena_id := arena2.arena_id } ∧
      nr.used_cap = 0 ∧ nr.total_cap = arena2.region_cap ∧
      ∀ (i : Nat) (r : Region), arena2.regions[i]? = some r → r.pool_id ≠ nr.pool_id :=
  reset_fresh_first_region arena2 prov2 reach_arena2 rfl rfl

theorem reach_arena1K : Reachable arena1 provK1 :=
  Reachable.created 1 providerK provK1 arena1 sa_err.success rfl

theorem reach_arenaFK : Reachable arenaF provK1 :=
  Reachable.malloc_step arena1 provK1 1 (some (2, 0), sa_err.success, arenaF, provK1)
    reach_arena1K rfl

theorem reach_arena2K : Reachable arena2 provK2 :=
  Reachable.malloc_step arenaF provK1 1 (some (4, 0), sa_err.success, arena2, provK2)
    reach_arenaFK rfl

/-- C2 counterexample: after `reset` the region count is not always 1.
From the reachable two-region arena `arena2` under a provider whose
allocations fail during the reset call, the code destroys all regions and
then fails to rebuild the first one, leaving `count = 0`. -/
theorem reset_count_not_always_one :
    Reachable arena2 provK2 ∧
    (sarena_reset arena2 provK2).1.regions.length = 0 ∧
    (sarena_reset arena2 provK2).1.regions.length ≠ 1 :=
  ⟨reach_arena2K, rfl, by decide⟩

/-- C2 amended: `reset` has no error outcome (its return type carries no
error — the `sa_err` produced internally by `_sarena_init` is discarded),
and when the provider's region allocation during the call succeeds the
post-reset list has exactly one region, with `usedCapacity = 0` and the
rewind cursor cleared, regardless of how many regions existed before; but
when the underlying allocation fails during the call, the arena is left
with an empty region list (`count = 0`, not 1). -/
theorem reset_count_characterization (a : SArena) (p : Provider) (h : Reachable a p) :
    (p.ok p.ctr = true → p.ok (p.ctr + 1) = true →
      (sarena_reset a p).1.regions.length = 1 ∧
      (∀ (i : Nat) (r : Region),
        (sarena_reset a p).1.regions[i]? = some r → r.used_cap = 0) ∧
      (sarena_reset a p).1.rewind_it = none) ∧
    (¬(p.ok p.ctr = true ∧ p.ok (p.ctr + 1) = true) →
      (sarena_reset a p).1.regions.length = 0) := by
  have hI := reachable_inv a p h
  have hcap : a.region_cap ≠ 0 := by have := hI.cap_pos; omega
  constructor
  · intro h1 h2
    rw [reset_ok_shape a p hcap h1 h2]
    refine ⟨rfl, ?_, rfl⟩
    intro i r hr
    rcases i with - | i
    · simp only [List.getElem?_cons_zero, Option.some.injEq] at hr
      subst hr
      rfl
    · simp at hr
  · intro hfail
    rw [reset_fail_shape a p hcap hfail]
    rfl

theorem reset_count_characterization_witness :
    (sarena_reset arena2 prov2).1.regions.length = 1 ∧
    (sarena_reset arena2 provK2).1.regions.length = 0 :=
  ⟨((reset_count_characterization arena2 prov2 reach_arena2).1 rfl rfl).1,
   (reset_count_characterization arena2 provK2 reach_arena2K).2 (by decide)⟩

theorem rw_step (cap k g u : Nat) (a : SArena) (p : Provider) (s : Nat)
    (hR : RwState cap k g u a) (hpos : 0 < s) (hle : s ≤ cap)
    (hg : (greedyStep cap (g, u) s).1 ≤ k) :
    ∃ res a2, _sarena_malloc a p s = some (some res, sa_err.success, a2, p) ∧
      RwState cap k (greedyStep cap (g, u) s).1 (greedyStep cap (g, u) s).2 a2 := by
  obtain ⟨hcap, hlen, hg1, hu, hcaps, hdisj⟩ := hR
  unfold _sarena_malloc
  rw [if_neg (by omega)]
  rcases hdisj with ⟨hgk, hrw, hused, hzero⟩ | ⟨hgk, hrw, hused⟩
  · -- rewind mode: the cursor sits on region g - 1
    have hg1lt : g - 1 < a.regions.length := by omega
    rcases hcur : a.regions[g - 1]? with - | curr
    · rw [List.getElem?_eq_getElem hg1lt] at hcur; cases hcur
    · have hcu : curr.used_cap = u := hused curr hcur
      have hct : curr.total_cap = cap := (hcaps _ _ hcur).1
      simp only [activeIdx, hrw, hcur]
      by_cases hfit : s > curr.total_cap - curr.used_cap
      · -- exhausted: advance the cursor to region g
        rw [if_pos hfit]
        have hgs : greedyStep cap (g, u) s = (g + 1, s) := by
          unfold greedyStep
          rw [if_pos (by dsimp only; omega)]
        rw [hgs] at hg ⊢
        rcases hnr : a.regions[g - 1 + 1]? with - | nr
        · rw [List.getElem?_eq_getElem (by omega)] at hnr; cases hnr
        · have hnr0 : nr.used_cap = 0 := hzero (g - 1 + 1) nr (by omega) hnr
          have hnt : nr.total_cap = cap := (hcaps _ _ hnr).1
          refine ⟨(nr.pool_id, nr.used_cap), _, rfl, ?_⟩
          refine ⟨hcap, by dsimp only; rw [List.length_set]; exact hlen, by omega, by omega, ?_, ?_⟩
          · intro i r hr
            dsimp only at hr
            by_cases hi : i = g - 1 + 1
            · subst hi
              rw [List.getElem?_set_self (by omega)] at hr
              cases hr
              exact ⟨hnt, by dsimp only; omega⟩
            · rw [List.getElem?_set_ne (by omega)] at hr
              exact hcaps i r hr
          · by_cases hgk1 : g + 1 < k
            · left
              refine ⟨hgk1, ?_, ?_, ?_⟩
              · dsimp only
                rw [if_neg (by omega)]
                congr 1
                omega
              · intro r hr
                dsimp only at hr
                rw [show g + 1 - 1 = g - 1 + 1 by omega] at hr
                rw [List.getElem?_set_self (by omega)] at hr
                cases hr
                dsimp only
                omega
              · intro j r hj hr
                dsimp only at hr
                rw [List.getElem?_set_ne (by omega)] at hr
                exact hzero j r (by omega) hr
            · right
              refine ⟨by omega, ?_, ?_⟩
              · dsimp only
                rw [if_pos (by omega)]
              · intro r hr
                dsimp only at hr
                rw [show k - 1 = g - 1 + 1 by omega] at hr
                rw [List.getElem?_set_self (by omega)] at hr
                cases hr
                dsimp only
                omega
      · -- the cursor region still has room: carve in place
        rw [if_neg hfit]
        have hgs : greedyStep cap (g, u) s = (g, u + s) := by
          unfold greedyStep
          rw [if_neg (by dsimp only; omega)]
        rw [hgs]
        refine ⟨(curr.pool_id, curr.used_cap), _, rfl, ?_⟩
        refine ⟨hcap, by dsimp only; rw [List.length_set]; exact hlen, hg1, by omega, ?_, ?_⟩
        · intro i r hr
          dsimp only at hr
          by_cases hi : i = g - 1
          · subst hi
            rw [List.getElem?_set_self (by omega)] at hr
            cases hr
            exact ⟨hct, by dsimp only; omega⟩
          · rw [List.getElem?_set_ne (by omega)] at hr
            exact hcaps i r hr
        · left
          refine ⟨hgk, rfl, ?_, ?_⟩
          · intro r hr
            dsimp only at hr
            rw [List.getElem?_set_self (by omega)] at hr
            cases hr
            dsimp only
            omega
          · intro j r hj hr
            dsimp only at hr
            rw [List.getElem?_set_ne (by omega)] at hr
            exact hzero j r hj hr
  · -- normal mode: the tail (region k - 1) is active
    have hkpos : ¬(a.regions.length = 0) := by omega
    have hklt : a.regions.length - 1 < a.regions.length := by omega
    rcases hcur : a.regions[a.regions.length - 1]? with - | curr
    · rw [List.getElem?_eq_getElem hklt] at hcur; cases hcur
    · have hcu : curr.used_cap = u := by
        apply hused
        rw [hlen] at hcur
        exact hcur
      have hct : curr.total_cap = cap := (hcaps _ _ hcur).1
      simp only [activeIdx, hrw, if_neg hkpos, hcur]
      by_cases hfit : s > curr.total_cap - curr.used_cap
      · -- would append a region: impossible under the greedy bound
        exfalso
        have hgs : greedyStep cap (g, u) s = (g + 1, s) := by
          unfold greedyStep
          rw [if_pos (by dsimp only; omega)]
        rw [hgs] at hg
        dsimp only at hg
        omega
      · rw [if_neg hfit]
        have hgs : greedyStep cap (g, u) s = (g, u + s) := by
          unfold greedyStep
          rw [if_neg (by dsimp only; omega)]
        rw [hgs]
        refine ⟨(curr.pool_id, curr.used_cap), _, rfl, ?_⟩
        refine ⟨hcap, by dsimp only; rw [List.length_set]; exact hlen, hg1, by omega, ?_, ?_⟩
        · intro i r hr
          dsimp only at hr
          by_cases hi : i = a.regions.length - 1
          · subst hi
            rw [List.getElem?_set_self (by omega)] at hr
            cases hr
            exact ⟨hct, by dsimp only; omega⟩
          · rw [List.getElem?_set_ne (by omega)] at hr
            exact hcaps i r hr
        · right
          refine ⟨hgk, rfl, ?_⟩
          intro r hr
          dsimp only at hr
          rw [show k - 1 = a.regions.length - 1 by omega] at hr
          rw [List.getElem?_set_self (by omega)] at hr
          cases hr
          dsimp only
          omega

theorem greedy_foldl_fst_le (cap : Nat) (sizes : List Nat) (st : Nat × Nat) :
    st.1 ≤ (sizes.foldl (greedyStep cap) st).1 := by
  induction sizes generalizing st with
  | nil => exact Nat.le_refl _
  | cons s rest ih =>
    have h1 : st.1 ≤ (greedyStep cap st s).1 := by
      unfold greedyStep
      split <;> dsimp only <;> omega
    exact le_trans h1 (ih (greedyStep cap st s))

theorem rw_run (cap k : Nat) (sizes : List Nat) :
    ∀ (g u : Nat) (a : SArena) (p : Provider),
      RwState cap k g u a → (∀ s ∈ sizes, 0 < s ∧ s ≤ cap) →
      (sizes.foldl (greedyStep cap) (g, u)).1 ≤ k →
      (runMallocs a p sizes).2.1.regions.length = k ∧
      (runMallocs a p sizes).2.2 = p := by
  induction sizes with
  | nil =>
    intro g u a p hR hsz hg
    obtain ⟨-, hlen, -⟩ := hR
    exact ⟨hlen, rfl⟩
  | cons s rest ih =>
    intro g u a p hR hsz hg
    have hs := hsz s (by simp)
    rw [List.foldl_cons] at hg
    have hstep_le : (greedyStep cap (g, u) s).1 ≤ k :=
      le_trans (greedy_foldl_fst_le cap rest (greedyStep cap (g, u) s)) hg
    obtain ⟨res, a2, hm, hR2⟩ := rw_step cap k g u a p s hR hs.1 hs.2 hstep_le
    unfold runMallocs
    rw [hm]
    dsimp only
    exact ih (greedyStep cap (g, u) s).1 (greedyStep cap (g, u) s).2 a2 p hR2
      (fun x hx => hsz x (by simp [hx])) hg

theorem rewind_rwstate (a : SArena) (p : Provider) (h : Reachable a p)
    (hne : a.regions.length ≠ 0) :
    RwState a.region_cap a.regions.length 1 0 (sarena_rewind a) := by
  have hI := reachable_inv a p h
  unfold sarena_rewind
  rw [if_neg hne]
  refine ⟨rfl, by dsimp only; exact List.length_map a.regions _, by omega, by omega, ?_, ?_⟩
  · intro i r hr
    dsimp only at hr
    rw [List.getElem?_map] at hr
    rcases ho : a.regions[i]? with - | r0
    · rw [ho] at hr; cases hr
    · rw [ho] at hr
      cases hr
      exact ⟨hI.total_eq i r0 ho, by simp⟩
  · by_cases hk : a.regions.length > 1
    · left
      refine ⟨hk, by dsimp only; rw [if_pos hk], ?_, ?_⟩
      · intro r hr
        dsimp only at hr
        rw [List.getElem?_map] at hr
        rcases ho : a.regions[1 - 1]? with - | r0
        · rw [ho] at hr; cases hr
        · rw [ho] at hr
          cases hr
          rfl
      · intro j r hj hr
        dsimp only at hr
        rw [List.getElem?_map] at hr
        rcases ho : a.regions[j]? with - | r0
        · rw [ho] at hr; cases hr
        · rw [ho] at hr
          cases hr
          rfl
    · right
      refine ⟨by omega, ?_, ?_⟩
      · dsimp only
        rw [if_neg hk]
        rcases hrw : a.rewind_it with - | i
        · rfl
        · have := hI.cursor_lt i hrw
          omega
      · intro r hr
        dsimp only at hr
        rw [List.getElem?_map] at hr
        rcases ho : a.regions[a.regions.length - 1]? with - | r0
        · rw [ho] at hr; cases hr
        · rw [ho] at hr
          cases hr
          rfl

theorem reach_arenaT10 : Reachable arenaT10 prov1 :=
  Reachable.created 10 provider0 prov1 arenaT10 sa_err.success rfl

theorem reach_arenaT10b : Reachable arenaT10b prov1 :=
  Reachable.malloc_step arenaT10 prov1 6 (some (2, 0), sa_err.success, arenaT10b, prov1)
    reach_arenaT10 rfl

theorem reach_arenaT10c : Reachable arenaT10c prov2 :=
  Reachable.malloc_step arenaT10b prov1 6 (some (4, 0), sa_err.success, arenaT10c, prov2)
    reach_arenaT10b rfl

theorem reach_arenaR10 : Reachable arenaR10 prov2 :=
  Reachable.rewind_step arenaT10c prov2 reach_arenaT10c

/-- C5 counterexample: after `rewind` of a reachable arena with two
capacity-10 regions (pre-rewind total capacity 20), the valid allocation
sequence 6, 6, 6 has cumulative requested size 18 ≤ 20, yet its third call
appends a region: the count grows from 2 to 3 before the cumulative size
exceeds the pre-rewind total capacity (capacity is wasted at each region
boundary, so the cumulative-size bound does not prevent appends). -/
theorem rewind_cumulative_bound_fails :
    Reachable arenaR10 prov2 ∧
    arenaR10.regions.length = 2 ∧
    6 + 6 + 6 ≤ 2 * 10 ∧
    (runMallocs arenaR10 prov2 [6, 6, 6]).2.1.regions.length = 3 :=
  ⟨reach_arenaR10, rfl, by omega, rfl⟩

/-- C5 amended: after `rewind()`, a subsequent sequence of valid
allocations never appends a new region — the count stays fixed and the
provider is never consulted — as long as the sequence's greedy
region-by-region footprint (each region filled until a request no longer
fits, exactly as the cursor walk packs them) needs at most the pre-rewind
region count.  The cumulative-size bound of the original claim is
insufficient (see the counterexample); the greedy footprint is the correct
bound. -/
theorem rewind_reuse_no_append (a : SArena) (p : Provider) (h : Reachable a p)
    (hne : a.regions.length ≠ 0) (sizes : List Nat)
    (hsz : ∀ s ∈ sizes, 0 < s ∧ s ≤ a.region_cap)
    (hg : (greedy a.region_cap sizes).1 ≤ a.regions.length) :
    (runMallocs (sarena_rewind a) p sizes).2.1.regions.length = a.regions.length ∧
    (runMallocs (sarena_rewind a) p sizes).2.2 = p :=
  rw_run a.region_cap a.regions.length sizes 1 0 (sarena_rewind a) p
    (rewind_rwstate a p h hne) hsz hg

theorem rewind_reuse_no_append_witness :
    (runMallocs (sarena_rewind arena2) prov2 [1, 1]).2.1.regions.length =
      arena2.regions.length ∧
    (runMallocs (sarena_rewind arena2) prov2 [1, 1]).2.2 = prov2 :=
  rewind_reuse_no_append arena2 prov2 reach_arena2 (by decide) [1, 1]
    (by decide) (by decide)

theorem tallyList_nil (rid : Nat) : tallyList [] rid = 0 := rfl

theorem tallyList_cons (e : Nat × Option Addr) (rest : List (Nat × Option Addr)) (rid : Nat) :
    tallyList (e :: rest) rid =
      (match e.2 with
       | some ad => if ad.1 = rid then e.1 else 0
       | none => 0) + tallyList rest rid := rfl

theorem tallyList_append (l1 l2 : List (Nat × Option Addr)) (rid : Nat) :
    tallyList (l1 ++ l2) rid = tallyList l1 rid + tallyList l2 rid := by
  induction l1 with
  | nil => simp [tallyList_nil]
  | cons e rest ih =>
    rw [List.cons_append, tallyList_cons, tallyList_cons, ih]
    omega

theorem tallyList_zero_of_lt (done : List (Nat × Option Addr)) (c rid : Nat)
    (hall : ∀ e ∈ done, ∀ ad : Addr, e.2 = some ad → ad.1 < c) (hge : c ≤ rid) :
    tallyList done rid = 0 := by
  induction done with
  | nil => rfl
  | cons e rest ih =>
    have hrest := ih (fun e' he' ad had => hall e' (List.mem_cons_of_mem _ he') ad had)
    rw [tallyList_cons, hrest]
    rcases he : e.2 with - | ad
    · simp
    · have := hall e (by simp) ad he
      simp only [he]
      rw [if_neg (by omega)]

theorem create_some_shape (region_cap : Nat) (p p2 : Provider) (a : SArena) (e : sa_err)
    (h : sarena_create region_cap p = (some a, e, p2)) :
    region_cap ≠ 0 ∧
    a = SArena.mk [Region.mk 0 region_cap (p.ctr + 2) (p.ctr + 1)] region_cap none p.ctr ∧
    p2.ctr = p.ctr + 3 := by
  by_cases h1 : p.ok p.ctr = true
  · by_cases hc : region_cap = 0
    · subst hc; rw [create_invalid p h1] at h; simp at h
    · by_cases h2 : p.ok (p.ctr + 1) = true
      · by_cases h3 : p.ok (p.ctr + 2) = true
        · rw [create_ok region_cap p hc h1 h2 h3] at h
          simp only [Prod.mk.injEq, Option.some.injEq] at h
          obtain ⟨ha, -, hp⟩ := h
          subst ha; subst hp
          exact ⟨hc, rfl, rfl⟩
        · rw [create_fail_pool region_cap p hc h1 h2 (by simpa using h3)] at h; simp at h
      · rw [create_fail_rec region_cap p hc h1 (by simpa using h2)] at h; simp at h
  · rw [create_fail_arena region_cap p (by simpa using h1)] at h; simp at h

theorem run_step (cap : Nat) (done : List (Nat × Option Addr)) (a : SArena) (p : Provider)
    (s : Nat) (hR : RunInv cap done a p) (hpos : 0 < s) (hle : s ≤ cap) :
    ∃ res err a2 p2, _sarena_malloc a p s = some (res, err, a2, p2) ∧
      (∀ ad : Addr, res = some ad → ad.2 = tallyList done ad.1) ∧
      RunInv cap (done ++ [(s, res)]) a2 p2 := by
  obtain ⟨hcap, hrw, hne, hcaps, hmono, htally, hdone⟩ := hR
  unfold _sarena_malloc
  rw [if_neg (by omega)]
  simp only [activeIdx, hrw, if_neg hne]
  have hlt : a.regions.length - 1 < a.regions.length := by omega
  rcases hcur : a.regions[a.regions.length - 1]? with - | curr
  · rw [List.getElem?_eq_getElem hlt] at hcur; cases hcur
  · have hcc := hcaps _ _ hcur
    simp only [hcur]
    by_cases hfit : s > curr.total_cap - curr.used_cap
    · rw [if_pos hfit]
      rcases hpb : _region_list_push_back a.regions a.region_cap p with ⟨os, p1⟩
      rcases os with - | rs1
      · -- the append failed: trace records a failure, arena unchanged
        simp only [hpb]
        refine ⟨none, sa_err.malloc_fail, a, p1, rfl, ?_, ?_⟩
        · intro ad had; cases had
        · have hctr : p.ctr ≤ p1.ctr := by
            have hx := push_back_ctr_le a.regions a.region_cap p
            rw [hpb] at hx
            exact hx
          refine ⟨hcap, hrw, hne, ?_, hmono, ?_, ?_⟩
          · intro i r hr
            obtain ⟨h1, h2, h3⟩ := hcaps i r hr
            exact ⟨h1, h2, by omega⟩
          · intro i r hr
            rw [tallyList_append, tallyList_cons, tallyList_nil]
            have := htally i r hr
            dsimp only
            omega
          · intro e he ad had
            rcases List.mem_append.mp he with h1 | h1
            · have := hdone e h1 ad had; omega
            · simp at h1
              subst h1
              simp at had
      · -- the append succeeded: carve offset 0 from the fresh region
        obtain ⟨hrs1, hp1, -, -⟩ := push_back_some _ _ _ _ _ hpb
        subst hrs1; subst hp1
        have hlen1 : a.regions.length - 1 + 1 = a.regions.length := by omega
        have hidx :
            (a.regions ++
              [{ used_cap := 0, total_cap := a.region_cap,
                 pool_id := p.ctr + 1, rec_id := p.ctr }])[a.regions.length - 1 + 1]? =
            some { used_cap := 0, total_cap := a.region_cap,
                   pool_id := p.ctr + 1, rec_id := p.ctr } := by
          rw [hlen1, List.getElem?_append_right (by omega)]
          simp
        simp only [hpb, hidx]
        refine ⟨some (p.ctr + 1, 0), sa_err.success, _, _, rfl, ?_, ?_⟩
        · intro ad had
          cases had
          exact (tallyList_zero_of_lt done p.ctr (p.ctr + 1) hdone (by omega)).symm
        · refine ⟨hcap, rfl, ?_, ?_, ?_, ?_, ?_⟩
          · dsimp only
            rw [List.length_set, List.length_append]
            simp
          · intro i r hr
            dsimp only at hr
            rw [hlen1, getElem?_append_set] at hr
            by_cases hi : i = a.regions.length
            · rw [if_pos hi] at hr
              cases hr
              refine ⟨hcap, by show 0 + s ≤ cap; omega,
                by show p.ctr + 1 < p.ctr + 2; omega⟩
            · rw [if_neg hi] at hr
              obtain ⟨h1, h2, h3⟩ := hcaps i r hr
              exact ⟨h1, h2, by show r.pool_id < p.ctr + 2; omega⟩
          · intro i j ri rj hij hri hrj
            dsimp only at hri hrj
            rw [hlen1, getElem?_append_set] at hri hrj
            by_cases hi : i = a.regions.length
            · rw [if_pos hi] at hri
              by_cases hj : j = a.regions.length
              · omega
              · rw [if_neg hj] at hrj
                have := (List.getElem?_eq_some.mp hrj).1
                omega
            · rw [if_neg hi] at hri
              by_cases hj : j = a.regions.length
              · rw [if_pos hj] at hrj
                cases hrj
                have := (hcaps i ri hri).2.2
                show ri.pool_id < p.ctr + 1
                omega
              · rw [if_neg hj] at hrj
                exact hmono i j ri rj hij hri hrj
          · intro i r hr
            dsimp only at hr
            rw [hlen1, getElem?_append_set] at hr
            rw [tallyList_append, tallyList_cons, tallyList_nil]
            by_cases hi : i = a.regions.length
            · rw [if_pos hi] at hr
              cases hr
              show 0 + s = tallyList done (p.ctr + 1) + _
              rw [tallyList_zero_of_lt done p.ctr (p.ctr + 1) hdone (by omega)]
              dsimp only
              rw [if_pos rfl]
              omega
            · rw [if_neg hi] at hr
              have h3 := (hcaps i r hr).2.2
              have hT := htally i r hr
              dsimp only
              rw [if_neg (by omega)]
              omega
          · intro e he ad had
            rcases List.mem_append.mp he with h1 | h1
            · have := hdone e h1 ad had
              show ad.1 < p.ctr + 2
              omega
            · simp at h1
              subst h1
              dsimp only at had
              cases had
              show p.ctr + 1 < p.ctr + 2
              omega
    · -- the tail region has room: carve in place
      rw [if_neg hfit]
      refine ⟨some (curr.pool_id, curr.used_cap), sa_err.success, _, _, rfl, ?_, ?_⟩
      · intro ad had
        cases had
        exact htally _ _ hcur
      · refine ⟨hcap, rfl, by dsimp only; rw [List.length_set]; exact hne, ?_, ?_, ?_, ?_⟩
        · intro i r hr
          dsimp only at hr
          by_cases hi : i = a.regions.length - 1
          · subst hi
            rw [List.getElem?_set_self (by omega)] at hr
            cases hr
            refine ⟨hcc.1, by show curr.used_cap + s ≤ cap; omega,
              by show curr.pool_id < p.ctr; omega⟩
          · rw [List.getElem?_set_ne (by omega)] at hr
            exact hcaps i r hr
        · intro i j ri rj hij hri hrj
          dsimp only at hri hrj
          by_cases hi : i = a.regions.length - 1
          · subst hi
            rw [List.getElem?_set_self (by omega)] at hri
            cases hri
            rw [List.getElem?_set_ne (by omega)] at hrj
            have := (List.getElem?_eq_some.mp hrj).1
            omega
          · rw [List.getElem?_set_ne (by omega)] at hri
            by_cases hj : j = a.regions.length - 1
            · subst hj
              rw [List.getElem?_set_self (by omega)] at hrj
              cases hrj
              have := hmono i (a.regions.length - 1) ri curr hij hri hcur
              show ri.pool_id < curr.pool_id
              omega
            · rw [List.getElem?_set_ne (by omega)] at hrj
              exact hmono i j ri rj hij hri hrj
        · intro i r hr
          dsimp only at hr
          rw [tallyList_append, tallyList_cons, tallyList_nil]
          by_cases hi : i = a.regions.length - 1
          · subst hi
            rw [List.getElem?_set_self (by omega)] at hr
            cases hr
            have hT := htally _ _ hcur
            show curr.used_cap + s = tallyList done curr.pool_id + _
            dsimp only
            rw [if_pos rfl]
            omega
          · rw [List.getElem?_set_ne (by omega)] at hr
            have hT := htally i r hr
            have hilt := (List.getElem?_eq_some.mp hr).1
            have hne2 := hmono i (a.regions.length - 1) r curr (by omega) hr hcur
            dsimp only
            rw [if_neg (by omega)]
            omega
        · intro e he ad had
          rcases List.mem_append.mp he with h1 | h1
          · exact hdone e h1 ad had
          · simp at h1
            subst h1
            dsimp only at had
            cases had
            exact hcc.2.2

theorem run_tally (cap : Nat) (sizes : List Nat) :
    ∀ (done : List (Nat × Option Addr)) (a : SArena) (p : Provider),
      RunInv cap done a p → (∀ s ∈ sizes, 0 < s ∧ s ≤ cap) →
      ∀ (k rid off : Nat),
        ((runMallocs a p sizes).1)[k]? = some (some (rid, off)) →
        off = tallyList (done ++ (sizes.zip (runMallocs a p sizes).1).take k) rid := by
  induction sizes with
  | nil =>
    intro done a p hR hsz k rid off hk
    simp [runMallocs] at hk
  | cons s rest ih =>
    intro done a p hR hsz k rid off hk
    obtain ⟨res, err, a2, p2, hm, hoff, hR2⟩ :=
      run_step cap done a p s hR (hsz s (by simp)).1 (hsz s (by simp)).2
    have hrm : runMallocs a p (s :: rest) =
        (res :: (runMallocs a2 p2 rest).1, (runMallocs a2 p2 rest).2) := by
      simp only [runMallocs, hm]
    rw [hrm] at hk ⊢
    dsimp only at hk ⊢
    rcases k with - | k
    · simp only [List.getElem?_cons_zero, Option.some.injEq] at hk
      have h0 := hoff (rid, off) hk
      simpa using h0
    · simp only [List.getElem?_cons_succ] at hk
      have hrec := ih (done ++ [(s, res)]) a2 p2 hR2
        (fun x hx => hsz x (List.mem_cons_of_mem _ hx)) k rid off hk
      rw [List.zip_cons_cons, List.take_succ_cons, List.append_cons]
      exact hrec

theorem tallyList_take_le (l : List (Nat × Option Addr)) (rid k1 k2 : Nat) (h : k1 ≤ k2) :
    tallyList (l.take k1) rid ≤ tallyList (l.take k2) rid := by
  have h2 : List.take k1 (List.take k2 l) = List.take k1 l := by
    rw [List.take_take]
    congr 1
    omega
  have heq : l.take k2 = l.take k1 ++ (l.take k2).drop k1 := by
    conv_lhs => rw [← List.take_append_drop k1 (l.take k2)]
    rw [h2]
  rw [heq, tallyList_append]
  omega

/-- C3: starting from a freshly created arena, for any sequence of
allocation requests each in `(0, regionCapacity]`, every successful call's
returned address is the base of the region it was served from (the pool
id) plus the sum of the sizes of all earlier successful allocations carved
from that same region; consequently, two successful allocations served
from the same pool occupy non-overlapping ranges: the earlier one ends at
or before the later one's offset. -/
theorem malloc_sequence_addresses (cap : Nat) (p p2 : Provider) (a : SArena) (e : sa_err)
    (hc : sarena_create cap p = (some a, e, p2))
    (sizes : List Nat) (hsz : ∀ s ∈ sizes, 0 < s ∧ s ≤ cap) :
    (∀ (k rid off : Nat),
      ((runMallocs a p2 sizes).1)[k]? = some (some (rid, off)) →
      off = tallyList ((sizes.zip (runMallocs a p2 sizes).1).take k) rid) ∧
    (∀ (i j rid oi oj si : Nat), i < j →
      ((runMallocs a p2 sizes).1)[i]? = some (some (rid, oi)) →
      ((runMallocs a p2 sizes).1)[j]? = some (some (rid, oj)) →
      sizes[i]? = some si →
      oi + si ≤ oj) := by
  obtain ⟨hcz, ha, hp2⟩ := create_some_shape cap p p2 a e hc
  have hR : RunInv cap [] a p2 := by
    subst ha
    refine ⟨rfl, rfl, by simp, ?_, ?_, ?_, ?_⟩
    · intro i r hr
      rcases i with - | i
      · simp only [List.getElem?_cons_zero, Option.some.injEq] at hr
        subst hr
        exact ⟨rfl, by simp, by show p.ctr + 2 < p2.ctr; omega⟩
      · simp at hr
    · intro i j ri rj hij hri hrj
      rcases j with - | j
      · omega
      · simp at hrj
    · intro i r hr
      rcases i with - | i
      · simp only [List.getElem?_cons_zero, Option.some.injEq] at hr
        subst hr
        rfl
      · simp at hr
    · intro e' he' ad had
      simp at he'
  have hmain := run_tally cap sizes [] a p2 hR hsz
  constructor
  · intro k rid off hk
    have := hmain k rid off hk
    simpa using this
  · intro i j rid oi oj si hij hi hj hsi
    have hoi := hmain i rid oi hi
    have hoj := hmain j rid oj hj
    simp only [List.nil_append] at hoi hoj
    have hzip : ((sizes.zip (runMallocs a p2 sizes).1))[i]? = some (si, some (rid, oi)) :=
      List.getElem?_zip_eq_some.mpr ⟨hsi, hi⟩
    have hstep : tallyList ((sizes.zip (runMallocs a p2 sizes).1).take (i + 1)) rid =
        oi + si := by
      rw [List.take_succ, hzip]
      rw [tallyList_append, ← hoi]
      show oi + tallyList [(si, some (rid, oi))] rid = oi + si
      rw [tallyList_cons, tallyList_nil]
      dsimp only
      rw [if_pos rfl]
      omega
    have hmono := tallyList_take_le (sizes.zip (runMallocs a p2 sizes).1) rid (i + 1) j
      (by omega)
    rw [hstep] at hmono
    omega

theorem malloc_sequence_addresses_witness :
    (0 : Nat) + 2 ≤ 2 :=
  (malloc_sequence_addresses 4 provider0 prov1 (SArena.mk [Region.mk 0 4 2 1] 4 none 0)
    sa_err.success rfl [2, 2] (by decide)).2 0 1 2 0 2 2 (by decide) rfl rfl rfl
